import Mathlib

/-!
Verification of the paraphrase rank-fusion core of the `arasaka` repository.

The definitions below are a shallow embedding of
`ml-service/infrastructure/paraphrasing/voting_ranker.py` (the `VotingRanker`
class with its `simple` / `weighted` / `ensemble` voting methods) and of
`ml-service/infrastructure/services/question_service_impl.py`
(`_find_with_paraphrasing`, `_baseline_search` and the fan-out loop).

Conventions of the embedding:
* Python `float` arithmetic is modelled over `ℚ` (exact rationals); the
  constants `0.4`, `0.7`, `0.2`, ... are the exact rationals the source
  literals denote.
* Python dicts (which preserve insertion order) are association lists
  `List (String × β)`; `defaultdict` reads/writes are `dupdate`, which
  mutates an existing entry in place or appends a fresh default entry.
* `list.sort(key=..., reverse=True)` (a stable descending sort) is
  `sortDescBy`, a stable insertion sort.
* Fallible calls (`raise`, collaborator failures) are `Except`.
-/

namespace Arasaka

/-- Container for one answer hit of one branch search
(`AnswerResult` in voting_ranker.py). -/
structure AnswerResult where
  answer_id : String
  answer_text : String
  score : ℚ
deriving DecidableEq

/-- `search_results_by_paraphrase`: a dict, in insertion order, from paraphrase
text to the candidate list that branch returned. -/
abbrev ParaphraseResultSet := List (String × List AnswerResult)

/-- One fused output row: the tuple
`(answer_id, answer_text, avg_score, max_score, ranking_score)`. -/
structure FusedAnswer where
  answer_id : String
  answer_text : String
  avg_score : ℚ
  max_score : ℚ
  ranking_score : ℚ
deriving DecidableEq

/-- Ordered-dict lookup (`d[k]` / `d.get(k)`): first matching key. -/
def lookupA {β : Type} : List (String × β) → String → Option β
  | [], _ => none
  | (k, v) :: rest, a => if k = a then some v else lookupA rest a

/-- The keys of an association list, in dict order. -/
def keysA {β : Type} (st : List (String × β)) : List String := st.map Prod.fst

/-- defaultdict read-modify-write `d[k] = f(d[k])`: mutate the entry in place
when the key exists, otherwise append a fresh entry initialised from the
default `d0` (Python dicts append new keys at the end). -/
def dupdate {β : Type} (d0 : β) (f : β → β) : List (String × β) → String → List (String × β)
  | [], a => [(a, f d0)]
  | (k, v) :: rest, a => if k = a then (k, f v) :: rest else (k, v) :: dupdate d0 f rest a

/-- Python `enumerate(results, start=n)`. -/
def enumFrom {α : Type} (n : ℕ) : List α → List (ℕ × α)
  | [] => []
  | x :: xs => (n, x) :: enumFrom (n + 1) xs

/-- The item sequence of the nested loop
`for paraphrase, results in rs.items(): for position, result in
enumerate(results, start=1)`: positions are branch-local and 1-indexed. -/
def iterItems (rs : ParaphraseResultSet) : List (ℕ × AnswerResult) :=
  rs.flatMap (fun pr => enumFrom 1 pr.2)

/-- All appearances of one `answer_id` across all branches, in iteration
order, each with its branch-local 1-indexed position. -/
def appearances (rs : ParaphraseResultSet) (aid : String) : List (ℕ × AnswerResult) :=
  (iterItems rs).filter (fun x => x.2.answer_id = aid)

/-- `np.mean` over rationals (total: the empty list yields `0`; the source
only ever takes the mean of a non-empty accumulator). -/
def mean (l : List ℚ) : ℚ := l.sum / l.length

/-- `np.max(scores) if scores else 0.0`: the maximum of a list, `0` when it is
empty. -/
def listMax : List ℚ → ℚ
  | [] => 0
  | x :: xs => xs.foldl max x

/-- Insert one element into a descending-by-key list, after every element of
key greater or equal (giving the stability of Python's sort). -/
def insertDescBy {α : Type} (key : α → ℚ) (x : α) : List α → List α
  | [] => [x]
  | y :: ys => if key y < key x then x :: y :: ys else y :: insertDescBy key x ys

/-- `lst.sort(key=key, reverse=True)`: stable descending sort. -/
def sortDescBy {α : Type} (key : α → ℚ) (l : List α) : List α :=
  l.foldl (fun acc x => insertDescBy key x acc) []

/-- Accumulate the per-`answer_id` defaultdict of a voting method: fold the
item sequence, pushing each appearance into that id's record (default `d0`). -/
def collectBy {β : Type} (d0 : β) (push : β → ℕ × AnswerResult → β)
    (s : List (ℕ × AnswerResult)) : List (String × β) :=
  s.foldl (fun st x => dupdate d0 (fun d => push d x) st x.2.answer_id) []

/-- The `answer_texts` dict: the first-seen text per `answer_id`
(`if answer_id not in answer_texts: answer_texts[answer_id] = ...`). -/
def collectTexts (rs : ParaphraseResultSet) : List (String × String) :=
  (iterItems rs).foldl
    (fun st x =>
      if (lookupA st x.2.answer_id).isSome then st
      else st ++ [(x.2.answer_id, x.2.answer_text)]) []

/-- Accumulator of `_simple_voting`: `{"votes": 0, "positions": []}`. -/
structure SData where
  votes : ℕ
  positions : List ℕ
deriving DecidableEq

def sZero : SData := ⟨0, []⟩

/-- One appearance for `_simple_voting`: `votes += 1; positions.append(pos)`. -/
def sPush (d : SData) (x : ℕ × AnswerResult) : SData :=
  ⟨d.votes + 1, d.positions ++ [x.1]⟩

/-- The first loop of `_simple_voting`. -/
def simpleCollect (rs : ParaphraseResultSet) : List (String × SData) :=
  collectBy sZero sPush (iterItems rs)

/-- One output row of `_simple_voting`:
`final_score = votes + 1.0 / np.mean(positions)`, emitted three times. -/
def simpleEntry (texts : List (String × String)) (a : String) (d : SData) : FusedAnswer :=
  let avg_position := mean (d.positions.map (fun p : ℕ => (p : ℚ)))
  let position_bonus := 1 / avg_position
  let final_score := (d.votes : ℚ) + position_bonus
  ⟨a, (lookupA texts a).getD "", final_score, final_score, final_score⟩

/-- `VotingRanker._simple_voting`. -/
def simple_voting (rs : ParaphraseResultSet) : List FusedAnswer :=
  sortDescBy (fun f => f.ranking_score)
    ((simpleCollect rs).map (fun kv => simpleEntry (collectTexts rs) kv.1 kv.2))

/-- Accumulator of `_weighted_voting`:
`{"scores": [], "positions": [], "count": 0}`. -/
structure WData where
  scores : List ℚ
  positions : List ℕ
  count : ℕ
deriving DecidableEq

def wZero : WData := ⟨[], [], 0⟩

/-- One appearance for `_weighted_voting`: append the raw score and the
position, `count += 1`. -/
def wPush (d : WData) (x : ℕ × AnswerResult) : WData :=
  ⟨d.scores ++ [x.2.score], d.positions ++ [x.1], d.count + 1⟩

/-- The first loop of `_weighted_voting`. -/
def weightedCollect (rs : ParaphraseResultSet) : List (String × WData) :=
  collectBy wZero wPush (iterItems rs)

/-- One output row of `_weighted_voting`:
`ranking_score = avg_score*0.4 + avg_position_weight*0.4 + count_bonus*0.2`,
with `count_bonus = count / len(resultSet)` guarded on a non-empty dict. -/
def weightedEntry (numLists : ℕ) (texts : List (String × String)) (a : String)
    (d : WData) : FusedAnswer :=
  let avg_score := mean d.scores
  let max_score := listMax d.scores
  let position_weights := d.positions.map (fun p : ℕ => 1 / (p : ℚ))
  let avg_position_weight := mean position_weights
  let count_bonus : ℚ := if numLists ≠ 0 then (d.count : ℚ) / (numLists : ℚ) else 0
  let ranking_score := avg_score * 0.4 + avg_position_weight * 0.4 + count_bonus * 0.2
  ⟨a, (lookupA texts a).getD "", avg_score, max_score, ranking_score⟩

/-- `VotingRanker._weighted_voting`. -/
def weighted_voting (rs : ParaphraseResultSet) : List FusedAnswer :=
  sortDescBy (fun f => f.ranking_score)
    ((weightedCollect rs).map (fun kv => weightedEntry rs.length (collectTexts rs) kv.1 kv.2))

/-- `max(d.values())` (only applied to non-empty dicts in the source). -/
def maxVals (d : List (String × ℚ)) : ℚ := listMax (d.map Prod.snd)

/-- The normalisation step of `_ensemble_voting`:
`{k: v / mx if mx > 0 else 0 for k, v in d.items()}`, skipped on an empty
dict. -/
def normalizeDict (d : List (String × ℚ)) : List (String × ℚ) :=
  if d.isEmpty then d
  else d.map (fun kv => (kv.1, if 0 < maxVals d then kv.2 / maxVals d else 0))

/-- `simple_dict`: `answer_id` to the simple score (third tuple field). -/
def simpleDict (rs : ParaphraseResultSet) : List (String × ℚ) :=
  (simple_voting rs).map (fun f => (f.answer_id, f.avg_score))

/-- `weighted_dict`: `answer_id` to the weighted `ranking_score`. -/
def weightedDict (rs : ParaphraseResultSet) : List (String × ℚ) :=
  (weighted_voting rs).map (fun f => (f.answer_id, f.ranking_score))

/-- `max_score_dict`: `answer_id` to the weighted `max_score`. -/
def maxScoreDict (rs : ParaphraseResultSet) : List (String × ℚ) :=
  (weighted_voting rs).map (fun f => (f.answer_id, f.max_score))

/-- `answer_texts` of `_ensemble_voting`: taken from the weighted output. -/
def textsDict (rs : ParaphraseResultSet) : List (String × String) :=
  (weighted_voting rs).map (fun f => (f.answer_id, f.answer_text))

/-- The normalised `simple_dict`. -/
def normSimpleDict (rs : ParaphraseResultSet) : List (String × ℚ) :=
  normalizeDict (simpleDict rs)

/-- The normalised `weighted_dict`. -/
def normWeightedDict (rs : ParaphraseResultSet) : List (String × ℚ) :=
  normalizeDict (weightedDict rs)

/-- First-occurrence deduplication: one concrete iteration order for the
Python set `set(simple) | set(weighted)` (the properties proved below do not
depend on which order that set iterates in). -/
def dedupFirst : List String → List String
  | [] => []
  | x :: xs => x :: (dedupFirst xs).filter (fun y => y ≠ x)

/-- `ensemble_scores`: for each id of either dict,
`0.4 * simple_dict.get(id, 0) + 0.6 * weighted_dict.get(id, 0)`. -/
def ensembleScores (rs : ParaphraseResultSet) : List (String × ℚ) :=
  (dedupFirst (keysA (normSimpleDict rs) ++ keysA (normWeightedDict rs))).map
    (fun aid =>
      (aid, 0.4 * ((lookupA (normSimpleDict rs) aid).getD 0) +
            0.6 * ((lookupA (normWeightedDict rs) aid).getD 0)))

/-- `VotingRanker._ensemble_voting`: sort the combined scores descending and
re-attach `avg_score` (the normalised simple score), `max_score` (from the
weighted output) and the first-seen text. -/
def ensemble_voting (rs : ParaphraseResultSet) : List FusedAnswer :=
  (sortDescBy Prod.snd (ensembleScores rs)).map
    (fun kv =>
      let avg_score := (lookupA (normSimpleDict rs) kv.1).getD 0
      let max_score := (lookupA (maxScoreDict rs) kv.1).getD avg_score
      ⟨kv.1, (lookupA (textsDict rs) kv.1).getD "", avg_score, max_score, kv.2⟩)

/-- The failure modes of `rank_answers`: the source raises
`ValueError(f"Unknown voting method: ...")`, the spec's `ConfigurationError`. -/
inductive RankError
  | configurationError (method : String)
deriving DecidableEq

/-- `VotingRanker.rank_answers`: the empty-dict early return precedes the
method dispatch; an unknown method name raises. -/
def rank_answers (voting_method : String) (rs : ParaphraseResultSet) :
    Except RankError (List FusedAnswer) :=
  if rs.isEmpty then .ok []
  else if voting_method = "simple" then .ok (simple_voting rs)
  else if voting_method = "weighted" then .ok (weighted_voting rs)
  else if voting_method = "ensemble" then .ok (ensemble_voting rs)
  else .error (.configurationError voting_method)

/-! ## The query-service layer (`question_service_impl.py`) -/

/-- The `Answer` domain entity, restricted to the fields the search flow
reads (`answer_id`, `text`, the `score` attribute set by the repository). -/
structure Answer where
  answer_id : String
  text : String
  score : ℚ
deriving DecidableEq

/-- Failures of the external collaborators (embedding model, vector search,
paraphrase source); a branch timeout surfaces as one of these. -/
inductive CollabErr
  | embeddingError
  | searchError
  | timeout
  | paraphraseError
deriving DecidableEq

/-- An embedding vector. -/
abbrev Emb := List ℚ

/-- The three collaborators `_find_with_paraphrasing` calls:
`embedding_service.encode_text`, `answer_repository.find_similar_answers`,
`paraphrase_service.generate_paraphrases`; each may fail. -/
structure Collab where
  encode : String → Except CollabErr Emb
  findSimilar : Emb → Option ℕ → Option ℚ → Except CollabErr (List Answer)
  generateParaphrases : String → ℕ → Except CollabErr (List String)

/-- Python `str.lower`, restricted to the alphabets this repository uses
(ASCII letters and the Russian Cyrillic block, `Ё` included). -/
def pyLowerChar (c : Char) : Char :=
  if 65 ≤ c.toNat ∧ c.toNat ≤ 90 then Char.ofNat (c.toNat + 32)
  else if 1040 ≤ c.toNat ∧ c.toNat ≤ 1071 then Char.ofNat (c.toNat + 32)
  else if c.toNat = 1025 then Char.ofNat 1105
  else c

/-- `s.lower()` as its character sequence. -/
def pyLower (s : String) : List Char := s.data.map pyLowerChar

/-- `num_paraphrases = 5`. -/
def num_paraphrases : ℕ := 5

/-- `limit_per_paraphrase = 5`: the per-branch result limit of the fan-out. -/
def limit_per_paraphrase : ℕ := 5

/-- `paraphrase_threshold = (score_threshold * 0.7) if score_threshold else
0.2`. Python truthiness: both `None` and `0.0` are falsy, so a zero baseline
threshold also selects the absolute default `0.2`. -/
def paraphraseThreshold (score_threshold : Option ℚ) : ℚ :=
  match score_threshold with
  | some t => if t = 0 then 0.2 else t * 0.7
  | none => 0.2

/-- The two early-exit tests of `_find_with_paraphrasing` (no paraphrases, or
a single paraphrase equal to the query case-insensitively): when `true` the
service runs the baseline path and builds no `ParaphraseResultSet`. -/
def usesBaseline (query : String) (paraphrases : List String) : Bool :=
  if paraphrases.isEmpty then true
  else if paraphrases.length = 1 ∧ pyLower (paraphrases.headD "") = pyLower query then true
  else false

/-- `_baseline_search`: embed the query, one vector search with the caller's
limit and threshold. -/
def baselineSearch (c : Collab) (query : String) (limit : Option ℕ)
    (score_threshold : Option ℚ) : Except CollabErr (List Answer) := do
  let emb ← c.encode query
  c.findSimilar emb limit score_threshold

/-- The fan-out loop of `_find_with_paraphrasing` (lines 143-165): sequential
over the paraphrases, each branch embeds and searches with `limit 5` and the
relaxed threshold. The loop body has no exception handler, so the first
branch failure aborts the whole loop. -/
def fanoutResults (c : Collab) (paraphrases : List String) (thr : ℚ) :
    Except CollabErr (List (String × List Answer)) :=
  paraphrases.foldlM
    (fun acc p => do
      let emb ← c.encode p
      let answers ← c.findSimilar emb (some limit_per_paraphrase) (some thr)
      pure (acc ++ [(p, answers)]))
    []

/-- Conversion of the branch answers to `AnswerResult` rows for voting. -/
def toResultSet (branches : List (String × List Answer)) : ParaphraseResultSet :=
  branches.map (fun pr => (pr.1, pr.2.map (fun a => ⟨a.answer_id, a.text, a.score⟩)))

/-- `answer_entity_map`: the first-seen `Answer` entity per id. -/
def entityMap (branches : List (String × List Answer)) : List (String × Answer) :=
  (branches.flatMap Prod.snd).foldl
    (fun st a =>
      if (lookupA st a.answer_id).isSome then st else st ++ [(a.answer_id, a)]) []

/-- The result-assembly loop (lines 171-196): skip ids already seen, reuse
the stored entity with its score set to the voting `max_score`, or build a
fresh entity. -/
def assembleGo (emap : List (String × Answer)) :
    List FusedAnswer → List String → List Answer
  | [], _ => []
  | f :: rest, seen =>
    if f.answer_id ∈ seen then assembleGo emap rest seen
    else
      (match lookupA emap f.answer_id with
        | some a0 => { a0 with score := f.max_score }
        | none => ⟨f.answer_id, f.answer_text, f.max_score⟩) ::
      assembleGo emap rest (seen ++ [f.answer_id])

/-- `if limit: results = results[:limit]` (a zero limit is falsy and does not
truncate). -/
def applyLimit (limit : Option ℕ) (results : List Answer) : List Answer :=
  match limit with
  | some n => if n = 0 then results else results.take n
  | none => results

/-- `QuestionServiceImpl._find_with_paraphrasing`. The outer
`except Exception` (lines 211-213) turns a paraphrase-source failure or any
branch failure into a whole-request fallback to `_baseline_search`; the
`weighted` voting call cannot raise. -/
def findWithParaphrasing (c : Collab) (query : String) (limit : Option ℕ)
    (score_threshold : Option ℚ) : Except CollabErr (List Answer) :=
  match c.generateParaphrases query num_paraphrases with
  | .error _ => baselineSearch c query limit score_threshold
  | .ok paraphrases =>
    if usesBaseline query paraphrases then
      baselineSearch c query limit score_threshold
    else
      match fanoutResults c paraphrases (paraphraseThreshold score_threshold) with
      | .error _ => baselineSearch c query limit score_threshold
      | .ok branches =>
        let ranked :=
          match rank_answers "weighted" (toResultSet branches) with
          | .ok r => r
          | .error _ => []
        .ok (applyLimit limit (assembleGo (entityMap branches) ranked []))

/-! ## Concrete inputs used by witnesses and counterexamples -/

/-- The concrete scenario of the spec (§8):
`{"p1": [(ans1, 0.8), (ans2, 0.7)], "p2": [(ans1, 0.75), (ans3, 0.6)]}`. -/
def exRS : ParaphraseResultSet :=
  [("p1", [⟨"ans1", "t1", 0.8⟩, ⟨"ans2", "t2", 0.7⟩]),
   ("p2", [⟨"ans1", "t1", 0.75⟩, ⟨"ans3", "t3", 0.6⟩])]

/-- A permutation of `exRS` (the two branches swapped). -/
def exRSrev : ParaphraseResultSet :=
  [("p2", [⟨"ans1", "t1", 0.75⟩, ⟨"ans3", "t3", 0.6⟩]),
   ("p1", [⟨"ans1", "t1", 0.8⟩, ⟨"ans2", "t2", 0.7⟩])]

/-- A one-branch, one-candidate result set. -/
def rsW : ParaphraseResultSet := [("p", [⟨"a", "t", 1/2⟩])]

/-- A candidate returned by the healthy fan-out branch of `cBranchFail`. -/
def ansA : Answer := ⟨"A", "answer from branch p1", 0.9⟩

/-- The candidate the baseline search of `cBranchFail` returns. -/
def ansB : Answer := ⟨"B", "answer from baseline", 0.8⟩

/-- A collaborator whose branch `"p2"` fails at the embedding call while
branch `"p1"` succeeds with `ansA`; the baseline search (recognisable by its
`none` limit, the fan-out always passes `some 5`) returns `ansB`. -/
def cBranchFail : Collab :=
  { encode := fun s => if s = "p2" then .error .embeddingError else .ok [1],
    findSimilar := fun _ lim _ =>
      if lim = some limit_per_paraphrase then .ok [ansA] else .ok [ansB],
    generateParaphrases := fun _ _ => .ok ["p1", "p2"] }

/-- A collaborator whose paraphrase source returns exactly the original query
re-cased (`["Как дела?"]` for the query `"как дела?"`). -/
def cSinglePara : Collab :=
  { encode := fun _ => .ok [1],
    findSimilar := fun _ _ _ => .ok [ansB],
    generateParaphrases := fun _ _ => .ok ["Как дела?"] }

/-! ## Numeric projections (closed forms proved below) -/

/-- The numeric triple `(avg_score, max_score, ranking_score)` that
`_weighted_voting` derives from one accumulator record. -/
def wNumbers (numLists : ℕ) (d : WData) : ℚ × ℚ × ℚ :=
  (mean d.scores, listMax d.scores,
   mean d.scores * 0.4 + mean (d.positions.map (fun p : ℕ => 1 / (p : ℚ))) * 0.4 +
     (if numLists ≠ 0 then (d.count : ℚ) / (numLists : ℚ) else 0) * 0.2)

/-- The score `votes + 1 / mean(positions)` that `_simple_voting` derives
from one accumulator record. -/
def sNumber (d : SData) : ℚ :=
  (d.votes : ℚ) + 1 / mean (d.positions.map (fun p : ℕ => (p : ℚ)))

/-! ## Association-list lemmas -/

theorem lookupA_dupdate {β : Type} (d0 : β) (f : β → β) (st : List (String × β))
    (a b : String) :
    lookupA (dupdate d0 f st a) b =
      if a = b then some (f ((lookupA st a).getD d0)) else lookupA st b := by
  induction st with
  | nil =>
    by_cases hab : a = b <;> simp [dupdate, lookupA, hab]
  | cons kv rest ih =>
    obtain ⟨k, v⟩ := kv
    by_cases hka : k = a
    · subst hka
      by_cases hab : k = b <;> simp [dupdate, lookupA, hab]
    · by_cases hkb : k = b
      · subst hkb
        have hab : ¬ a = k := fun h => hka h.symm
        simp [dupdate, lookupA, hka, hab]
      · simp [dupdate, lookupA, hka, hkb, ih]

theorem mem_keysA_dupdate {β : Type} (d0 : β) (f : β → β) (st : List (String × β))
    (a b : String) :
    b ∈ keysA (dupdate d0 f st a) ↔ b ∈ keysA st ∨ b = a := by
  induction st with
  | nil => simp [dupdate, keysA]
  | cons kv rest ih =>
    obtain ⟨k, v⟩ := kv
    by_cases hka : k = a
    · subst hka
      simp [dupdate, keysA]
      tauto
    · simp only [dupdate, if_neg hka, keysA, List.map_cons, List.mem_cons] at ih ⊢
      rw [ih]
      tauto

theorem nodup_keysA_dupdate {β : Type} (d0 : β) (f : β → β) (st : List (String × β))
    (a : String) (h : (keysA st).Nodup) : (keysA (dupdate d0 f st a)).Nodup := by
  induction st with
  | nil => simp [dupdate, keysA]
  | cons kv rest ih =>
    obtain ⟨k, v⟩ := kv
    simp only [keysA, List.map_cons, List.nodup_cons] at h
    by_cases hka : k = a
    · subst hka
      simpa [dupdate, keysA, List.nodup_cons] using h
    · have h1 := ih h.2
      simp only [dupdate, if_neg hka, keysA, List.map_cons, List.nodup_cons]
      refine ⟨?_, h1⟩
      rw [show (dupdate d0 f rest a).map Prod.fst = keysA (dupdate d0 f rest a) from rfl,
        mem_keysA_dupdate]
      rintro (hm | hm)
      · exact h.1 hm
      · exact hka hm

theorem lookupA_eq_none_iff {β : Type} (st : List (String × β)) (a : String) :
    lookupA st a = none ↔ a ∉ keysA st := by
  induction st with
  | nil => simp [lookupA, keysA]
  | cons kv rest ih =>
    obtain ⟨k, v⟩ := kv
    by_cases hka : k = a
    · subst hka
      simp [lookupA, keysA]
    · have : ¬ a = k := fun h => hka h.symm
      simp [lookupA, keysA, hka, this, ih]

theorem mem_of_lookupA_eq_some {β : Type} {st : List (String × β)} {a : String}
    {v : β} (h : lookupA st a = some v) : (a, v) ∈ st := by
  induction st with
  | nil => simp [lookupA] at h
  | cons kv rest ih =>
    obtain ⟨k, w⟩ := kv
    by_cases hka : k = a
    · subst hka
      have hwv : w = v := by simpa [lookupA] using h
      subst hwv
      exact List.mem_cons_self _ _
    · simp only [lookupA, if_neg hka] at h
      exact List.mem_cons_of_mem _ (ih h)

theorem lookupA_eq_some_of_mem {β : Type} {st : List (String × β)} {a : String}
    {v : β} (hnd : (keysA st).Nodup) (h : (a, v) ∈ st) : lookupA st a = some v := by
  induction st with
  | nil => simp at h
  | cons kv rest ih =>
    obtain ⟨k, w⟩ := kv
    simp only [keysA, List.map_cons, List.nodup_cons] at hnd
    rcases List.mem_cons.1 h with h1 | h1
    · obtain ⟨h2, h3⟩ := Prod.mk.injEq .. ▸ h1
      subst h2; subst h3
      simp [lookupA]
    · have hka : k ≠ a := by
        rintro rfl
        exact hnd.1 (List.mem_map_of_mem Prod.fst h1)
      simp [lookupA, hka, ih hnd.2 h1]

theorem lookupA_congr_perm {β : Type} {st st' : List (String × β)}
    (hp : st.Perm st') (hnd : (keysA st).Nodup) (a : String) :
    lookupA st a = lookupA st' a := by
  have hnd' : (keysA st').Nodup := ((hp.map Prod.fst).nodup hnd : _)
  cases h : lookupA st a with
  | none =>
    rw [lookupA_eq_none_iff] at h
    have : a ∉ keysA st' := fun hm => h ((hp.map Prod.fst).symm.mem_iff.1 hm)
    rw [eq_comm, lookupA_eq_none_iff]
    exact this
  | some v =>
    have hm : (a, v) ∈ st' := hp.mem_iff.1 (mem_of_lookupA_eq_some h)
    rw [eq_comm]
    exact lookupA_eq_some_of_mem hnd' hm

theorem lookupA_map_values {β γ : Type} (g : String → β → γ) (st : List (String × β))
    (a : String) :
    lookupA (st.map (fun kv => (kv.1, g kv.1 kv.2))) a = (lookupA st a).map (g a) := by
  induction st with
  | nil => simp [lookupA]
  | cons kv rest ih =>
    obtain ⟨k, v⟩ := kv
    by_cases hka : k = a
    · subst hka
      simp [lookupA]
    · simp [lookupA, hka, ih]

theorem keysA_map_values {β γ : Type} (g : String → β → γ) (st : List (String × β)) :
    keysA (st.map (fun kv => (kv.1, g kv.1 kv.2))) = keysA st := by
  induction st with
  | nil => rfl
  | cons kv rest ih => simp [keysA] at ih ⊢

/-! ## Closed forms of the defaultdict accumulation -/

theorem getD_foldl_collect {β : Type} (d0 : β) (push : β → ℕ × AnswerResult → β)
    (s : List (ℕ × AnswerResult)) :
    ∀ (st : List (String × β)) (a : String),
      (lookupA (s.foldl (fun st x => dupdate d0 (fun d => push d x) st x.2.answer_id) st) a).getD d0
        = (s.filter (fun x => x.2.answer_id = a)).foldl push ((lookupA st a).getD d0) := by
  induction s with
  | nil => intro st a; simp
  | cons x s ih =>
    intro st a
    rw [List.foldl_cons, ih]
    by_cases h : x.2.answer_id = a
    · rw [List.filter_cons_of_pos (by simpa using h), List.foldl_cons,
        lookupA_dupdate]
      simp [h]
    · rw [List.filter_cons_of_neg (by simpa using h), lookupA_dupdate, if_neg h]

theorem mem_keysA_foldl_collect {β : Type} (d0 : β) (push : β → ℕ × AnswerResult → β)
    (s : List (ℕ × AnswerResult)) :
    ∀ (st : List (String × β)) (a : String),
      a ∈ keysA (s.foldl (fun st x => dupdate d0 (fun d => push d x) st x.2.answer_id) st)
        ↔ a ∈ keysA st ∨ a ∈ s.map (fun x => x.2.answer_id) := by
  induction s with
  | nil => intro st a; simp
  | cons x s ih =>
    intro st a
    rw [List.foldl_cons, ih, mem_keysA_dupdate]
    simp only [List.map_cons, List.mem_cons]
    tauto

theorem nodup_keysA_foldl_collect {β : Type} (d0 : β) (push : β → ℕ × AnswerResult → β)
    (s : List (ℕ × AnswerResult)) :
    ∀ (st : List (String × β)), (keysA st).Nodup →
      (keysA (s.foldl (fun st x => dupdate d0 (fun d => push d x) st x.2.answer_id) st)).Nodup := by
  induction s with
  | nil => intro st h; simpa using h
  | cons x s ih =>
    intro st h
    rw [List.foldl_cons]
    exact ih _ (nodup_keysA_dupdate _ _ _ _ h)

theorem nodup_keysA_collectBy {β : Type} (d0 : β) (push : β → ℕ × AnswerResult → β)
    (s : List (ℕ × AnswerResult)) : (keysA (collectBy d0 push s)).Nodup :=
  nodup_keysA_foldl_collect d0 push s [] (by simp [keysA])

theorem mem_keysA_collectBy {β : Type} (d0 : β) (push : β → ℕ × AnswerResult → β)
    (s : List (ℕ × AnswerResult)) (a : String) :
    a ∈ keysA (collectBy d0 push s) ↔ a ∈ s.map (fun x => x.2.answer_id) := by
  rw [collectBy, mem_keysA_foldl_collect]
  simp [keysA]

theorem lookupA_collectBy_of_mem {β : Type} (d0 : β) (push : β → ℕ × AnswerResult → β)
    (s : List (ℕ × AnswerResult)) (a : String)
    (h : a ∈ s.map (fun x => x.2.answer_id)) :
    lookupA (collectBy d0 push s) a
      = some ((s.filter (fun x => x.2.answer_id = a)).foldl push d0) := by
  have hk : a ∈ keysA (collectBy d0 push s) := (mem_keysA_collectBy d0 push s a).2 h
  have hne : lookupA (collectBy d0 push s) a ≠ none := by
    rw [Ne, lookupA_eq_none_iff]
    exact fun hc => hc hk
  obtain ⟨v, hv⟩ := Option.ne_none_iff_exists'.1 hne
  have := getD_foldl_collect d0 push s [] a
  rw [collectBy] at hv
  rw [hv] at this
  simp only [Option.getD_some, lookupA, Option.getD_none] at this
  rw [collectBy, hv, this]

theorem lookupA_collectBy_of_not_mem {β : Type} (d0 : β) (push : β → ℕ × AnswerResult → β)
    (s : List (ℕ × AnswerResult)) (a : String)
    (h : a ∉ s.map (fun x => x.2.answer_id)) :
    lookupA (collectBy d0 push s) a = none := by
  rw [lookupA_eq_none_iff, mem_keysA_collectBy]
  exact h

/-! ## enumFrom, iterItems, dedupFirst -/

theorem map_snd_enumFrom {α : Type} (l : List α) : ∀ n, (enumFrom n l).map Prod.snd = l := by
  induction l with
  | nil => intro n; rfl
  | cons x xs ih => intro n; simp [enumFrom, ih]

theorem snd_mem_of_mem_enumFrom {α : Type} {l : List α} {n : ℕ} {x : ℕ × α}
    (h : x ∈ enumFrom n l) : x.2 ∈ l := by
  have := List.mem_map_of_mem Prod.snd h
  rwa [map_snd_enumFrom] at this

theorem exists_mem_enumFrom_of_mem {α : Type} {l : List α} {r : α} :
    ∀ n, r ∈ l → ∃ p, (p, r) ∈ enumFrom n l := by
  induction l with
  | nil => intro n h; simp at h
  | cons x xs ih =>
    intro n h
    rcases List.mem_cons.1 h with h1 | h1
    · exact ⟨n, by simp [enumFrom, h1]⟩
    · obtain ⟨p, hp⟩ := ih (n + 1) h1
      exact ⟨p, by simp [enumFrom, List.mem_cons.2 (Or.inr hp)]⟩

theorem iterItems_perm {rs rs' : ParaphraseResultSet} (h : rs.Perm rs') :
    (iterItems rs).Perm (iterItems rs') :=
  h.flatMap_right _

theorem mem_iterItems_ids (rs : ParaphraseResultSet) (aid : String) :
    aid ∈ (iterItems rs).map (fun x => x.2.answer_id)
      ↔ ∃ pr ∈ rs, ∃ r ∈ pr.2, r.answer_id = aid := by
  simp only [iterItems, List.mem_map, List.mem_flatMap]
  constructor
  · rintro ⟨x, ⟨pr, hpr, hx⟩, hid⟩
    exact ⟨pr, hpr, x.2, snd_mem_of_mem_enumFrom hx, hid⟩
  · rintro ⟨pr, hpr, r, hr, hid⟩
    obtain ⟨p, hp⟩ := exists_mem_enumFrom_of_mem 1 hr
    exact ⟨(p, r), ⟨pr, hpr, hp⟩, hid⟩

theorem mem_dedupFirst (l : List String) (a : String) : a ∈ dedupFirst l ↔ a ∈ l := by
  induction l with
  | nil => simp [dedupFirst]
  | cons x xs ih =>
    by_cases hax : a = x
    · subst hax
      simp [dedupFirst]
    · simp only [dedupFirst, List.mem_cons, List.mem_filter]
      constructor
      · rintro (h | ⟨h, _⟩)
        · exact Or.inl h
        · exact Or.inr (ih.1 h)
      · rintro (h | h)
        · exact Or.inl h
        · exact Or.inr ⟨ih.2 h, by simpa using hax⟩

theorem nodup_dedupFirst (l : List String) : (dedupFirst l).Nodup := by
  induction l with
  | nil => simp [dedupFirst]
  | cons x xs ih =>
    rw [dedupFirst, List.nodup_cons]
    constructor
    · intro hm
      have := (List.mem_filter.1 hm).2
      simp at this
    · exact ih.filter _

/-! ## Stable descending sort -/

theorem insertDescBy_perm {α : Type} (key : α → ℚ) (x : α) (l : List α) :
    (insertDescBy key x l).Perm (x :: l) := by
  induction l with
  | nil => exact List.Perm.refl _
  | cons y ys ih =>
    by_cases h : key y < key x
    · simp [insertDescBy, h]
    · rw [insertDescBy, if_neg h]
      exact (ih.cons y).trans (List.Perm.swap x y ys)

theorem sortDescBy_perm {α : Type} (key : α → ℚ) (l : List α) :
    (sortDescBy key l).Perm l := by
  suffices h : ∀ (l acc : List α),
      (l.foldl (fun acc x => insertDescBy key x acc) acc).Perm (acc ++ l) by
    simpa using h l []
  intro l
  induction l with
  | nil => intro acc; simp
  | cons x xs ih =>
    intro acc
    rw [List.foldl_cons]
    refine (ih _).trans ?_
    refine (((insertDescBy_perm key x acc).append_right xs).trans ?_)
    exact List.perm_middle.symm.trans (by simp)

theorem insertDescBy_pairwise {α : Type} (key : α → ℚ) (x : α) (l : List α)
    (h : l.Pairwise (fun a b => key b ≤ key a)) :
    (insertDescBy key x l).Pairwise (fun a b => key b ≤ key a) := by
  induction l with
  | nil => simp [insertDescBy]
  | cons y ys ih =>
    rw [List.pairwise_cons] at h
    by_cases hk : key y < key x
    · rw [insertDescBy, if_pos hk, List.pairwise_cons]
      refine ⟨?_, List.pairwise_cons.2 h⟩
      intro z hz
      rcases List.mem_cons.1 hz with h1 | h1
      · subst h1; exact le_of_lt hk
      · exact le_trans (h.1 z h1) (le_of_lt hk)
    · rw [insertDescBy, if_neg hk, List.pairwise_cons]
      refine ⟨?_, ih h.2⟩
      intro z hz
      rcases List.mem_cons.1 ((insertDescBy_perm key x ys).mem_iff.1 hz) with h1 | h1
      · subst h1; exact le_of_not_lt hk
      · exact h.1 z h1

theorem sortDescBy_pairwise {α : Type} (key : α → ℚ) (l : List α) :
    (sortDescBy key l).Pairwise (fun a b => key b ≤ key a) := by
  suffices h : ∀ (l acc : List α), acc.Pairwise (fun a b => key b ≤ key a) →
      (l.foldl (fun acc x => insertDescBy key x acc) acc).Pairwise (fun a b => key b ≤ key a) by
    exact h l [] (by simp)
  intro l
  induction l with
  | nil => intro acc hacc; simpa using hacc
  | cons x xs ih =>
    intro acc hacc
    rw [List.foldl_cons]
    exact ih _ (insertDescBy_pairwise key x acc hacc)

/-! ## listMax and mean -/

theorem seed_le_foldl_max : ∀ (xs : List ℚ) (x : ℚ), x ≤ xs.foldl max x := by
  intro xs
  induction xs with
  | nil => intro x; simp
  | cons z zs ih =>
    intro x
    rw [List.foldl_cons]
    exact le_trans (le_max_left x z) (ih (max x z))

theorem mem_le_foldl_max : ∀ (xs : List ℚ) (x y : ℚ), y ∈ xs → y ≤ xs.foldl max x := by
  intro xs
  induction xs with
  | nil => intro x y h; simp at h
  | cons z zs ih =>
    intro x y h
    rw [List.foldl_cons]
    rcases List.mem_cons.1 h with h1 | h1
    · subst h1; exact le_trans (le_max_right x y) (seed_le_foldl_max zs _)
    · exact ih _ y h1

theorem le_listMax {l : List ℚ} {x : ℚ} (h : x ∈ l) : x ≤ listMax l := by
  cases l with
  | nil => simp at h
  | cons y ys =>
    rw [listMax]
    rcases List.mem_cons.1 h with h1 | h1
    · subst h1; exact seed_le_foldl_max ys x
    · exact mem_le_foldl_max ys y x h1

theorem foldl_max_mem : ∀ (xs : List ℚ) (x : ℚ), xs.foldl max x ∈ x :: xs := by
  intro xs
  induction xs with
  | nil => intro x; simp
  | cons z zs ih =>
    intro x
    rw [List.foldl_cons]
    rcases List.mem_cons.1 (ih (max x z)) with h1 | h1
    · rcases max_choice x z with h2 | h2
      · exact List.mem_cons.2 (Or.inl (h1.trans h2))
      · exact List.mem_cons.2 (Or.inr (List.mem_cons.2 (Or.inl (h1.trans h2))))
    · exact List.mem_cons.2 (Or.inr (List.mem_cons.2 (Or.inr h1)))

theorem listMax_mem {l : List ℚ} (h : l ≠ []) : listMax l ∈ l := by
  cases l with
  | nil => exact absurd rfl h
  | cons y ys => exact foldl_max_mem ys y

theorem listMax_congr_perm {l l' : List ℚ} (h : l.Perm l') : listMax l = listMax l' := by
  rcases eq_or_ne l [] with rfl | hne
  · have : l' = [] := List.eq_nil_of_length_eq_zero (by simpa using h.length_eq.symm)
    rw [this]
  · have hne' : l' ≠ [] := by
      intro hc
      subst hc
      exact hne (List.eq_nil_of_length_eq_zero (by simpa using h.length_eq))
    apply le_antisymm
    · exact le_listMax (h.mem_iff.1 (listMax_mem hne))
    · exact le_listMax (h.symm.mem_iff.1 (listMax_mem hne'))

theorem mean_congr_perm {l l' : List ℚ} (h : l.Perm l') : mean l = mean l' := by
  rw [mean, mean, h.sum_eq, h.length_eq]

theorem mean_nonneg {l : List ℚ} (h : ∀ x ∈ l, 0 ≤ x) : 0 ≤ mean l :=
  div_nonneg (List.sum_nonneg h) (Nat.cast_nonneg _)

/-! ## Components of the folded accumulators -/

theorem foldl_wPush_scores (l : List (ℕ × AnswerResult)) :
    ∀ d : WData, (l.foldl wPush d).scores = d.scores ++ l.map (fun x => x.2.score) := by
  induction l with
  | nil => intro d; simp
  | cons x xs ih => intro d; simp [wPush, ih]

theorem foldl_wPush_positions (l : List (ℕ × AnswerResult)) :
    ∀ d : WData, (l.foldl wPush d).positions = d.positions ++ l.map (fun x => x.1) := by
  induction l with
  | nil => intro d; simp
  | cons x xs ih => intro d; simp [wPush, ih]

theorem foldl_wPush_count (l : List (ℕ × AnswerResult)) :
    ∀ d : WData, (l.foldl wPush d).count = d.count + l.length := by
  induction l with
  | nil => intro d; simp
  | cons x xs ih =>
    intro d
    rw [List.foldl_cons, ih]
    simp [wPush]
    omega

theorem foldl_sPush_votes (l : List (ℕ × AnswerResult)) :
    ∀ d : SData, (l.foldl sPush d).votes = d.votes + l.length := by
  induction l with
  | nil => intro d; simp
  | cons x xs ih =>
    intro d
    rw [List.foldl_cons, ih]
    simp [sPush]
    omega

theorem foldl_sPush_positions (l : List (ℕ × AnswerResult)) :
    ∀ d : SData, (l.foldl sPush d).positions = d.positions ++ l.map (fun x => x.1) := by
  induction l with
  | nil => intro d; simp
  | cons x xs ih => intro d; simp [sPush, ih]

/-! ## Closed forms of the voting outputs -/

theorem weighted_voting_eq (rs : ParaphraseResultSet) :
    weighted_voting rs
      = sortDescBy (fun f => f.ranking_score)
          ((weightedCollect rs).map
            (fun kv => weightedEntry rs.length (collectTexts rs) kv.1 kv.2)) := rfl

theorem weightedEntry_answer_id (n : ℕ) (texts : List (String × String)) (a : String)
    (d : WData) : (weightedEntry n texts a d).answer_id = a := rfl

theorem simpleEntry_answer_id (texts : List (String × String)) (a : String)
    (d : SData) : (simpleEntry texts a d).answer_id = a := rfl

theorem nodup_weighted_ids (rs : ParaphraseResultSet) :
    ((weighted_voting rs).map (fun f => f.answer_id)).Nodup := by
  have hperm : ((weighted_voting rs).map (fun f => f.answer_id)).Perm
      (keysA (weightedCollect rs)) := by
    have h1 := (sortDescBy_perm (fun f : FusedAnswer => f.ranking_score)
      ((weightedCollect rs).map
        (fun kv => weightedEntry rs.length (collectTexts rs) kv.1 kv.2))).map
      (fun f : FusedAnswer => f.answer_id)
    rw [weighted_voting_eq]
    refine h1.trans ?_
    rw [List.map_map]
    exact List.Perm.refl _
  exact hperm.symm.nodup (nodup_keysA_collectBy _ _ _)

theorem nodup_simple_ids (rs : ParaphraseResultSet) :
    ((simple_voting rs).map (fun f => f.answer_id)).Nodup := by
  have hperm : ((simple_voting rs).map (fun f => f.answer_id)).Perm
      (keysA (simpleCollect rs)) := by
    have h1 := (sortDescBy_perm (fun f : FusedAnswer => f.ranking_score)
      ((simpleCollect rs).map
        (fun kv => simpleEntry (collectTexts rs) kv.1 kv.2))).map
      (fun f : FusedAnswer => f.answer_id)
    rw [simple_voting]
    refine h1.trans ?_
    rw [List.map_map]
    exact List.Perm.refl _
  exact hperm.symm.nodup (nodup_keysA_collectBy _ _ _)

theorem mem_weighted_ids (rs : ParaphraseResultSet) (aid : String) :
    (∃ f ∈ weighted_voting rs, f.answer_id = aid)
      ↔ aid ∈ (iterItems rs).map (fun x => x.2.answer_id) := by
  rw [weighted_voting_eq]
  constructor
  · rintro ⟨f, hf, hid⟩
    have hf' := (sortDescBy_perm _ _).mem_iff.1 hf
    obtain ⟨kv, hkv, rfl⟩ := List.mem_map.1 hf'
    rw [weightedEntry_answer_id] at hid
    subst hid
    exact (mem_keysA_collectBy _ _ _ _).1 (List.mem_map_of_mem Prod.fst hkv)
  · intro h
    obtain ⟨kv, hkv, hid⟩ := List.mem_map.1 ((mem_keysA_collectBy wZero wPush
      (iterItems rs) aid).2 h : aid ∈ keysA (weightedCollect rs))
    refine ⟨weightedEntry rs.length (collectTexts rs) kv.1 kv.2, ?_, ?_⟩
    · exact (sortDescBy_perm _ _).symm.mem_iff.1 (List.mem_map_of_mem _ hkv)
    · rw [weightedEntry_answer_id, hid]

theorem mem_simple_ids (rs : ParaphraseResultSet) (aid : String) :
    (∃ f ∈ simple_voting rs, f.answer_id = aid)
      ↔ aid ∈ (iterItems rs).map (fun x => x.2.answer_id) := by
  rw [simple_voting]
  constructor
  · rintro ⟨f, hf, hid⟩
    have hf' := (sortDescBy_perm _ _).mem_iff.1 hf
    obtain ⟨kv, hkv, rfl⟩ := List.mem_map.1 hf'
    rw [simpleEntry_answer_id] at hid
    subst hid
    exact (mem_keysA_collectBy _ _ _ _).1 (List.mem_map_of_mem Prod.fst hkv)
  · intro h
    obtain ⟨kv, hkv, hid⟩ := List.mem_map.1 ((mem_keysA_collectBy sZero sPush
      (iterItems rs) aid).2 h : aid ∈ keysA (simpleCollect rs))
    refine ⟨simpleEntry (collectTexts rs) kv.1 kv.2, ?_, ?_⟩
    · exact (sortDescBy_perm _ _).symm.mem_iff.1 (List.mem_map_of_mem _ hkv)
    · rw [simpleEntry_answer_id, hid]

theorem lookupA_map_value {β γ : Type} (g : β → γ) (st : List (String × β)) (a : String) :
    lookupA (st.map (fun kv => (kv.1, g kv.2))) a = (lookupA st a).map g := by
  induction st with
  | nil => simp [lookupA]
  | cons kv rest ih =>
    obtain ⟨k, v⟩ := kv
    by_cases hka : k = a
    · subst hka
      simp [lookupA]
    · simp [lookupA, hka, ih]

theorem lookup_weighted_numbers (rs : ParaphraseResultSet) (aid : String) :
    lookupA ((weighted_voting rs).map
        (fun f => (f.answer_id, (f.avg_score, f.max_score, f.ranking_score)))) aid
      = if aid ∈ (iterItems rs).map (fun x => x.2.answer_id)
        then some (wNumbers rs.length ((appearances rs aid).foldl wPush wZero))
        else none := by
  have hperm : ((weighted_voting rs).map
      (fun f => (f.answer_id, (f.avg_score, f.max_score, f.ranking_score)))).Perm
      ((weightedCollect rs).map (fun kv => (kv.1, wNumbers rs.length kv.2))) := by
    rw [weighted_voting_eq]
    have h1 := (sortDescBy_perm (fun f : FusedAnswer => f.ranking_score)
      ((weightedCollect rs).map
        (fun kv => weightedEntry rs.length (collectTexts rs) kv.1 kv.2))).map
      (fun f : FusedAnswer => (f.answer_id, (f.avg_score, f.max_score, f.ranking_score)))
    refine h1.trans ?_
    rw [List.map_map]
    exact List.Perm.refl _
  have hnd : (keysA ((weighted_voting rs).map
      (fun f => (f.answer_id, (f.avg_score, f.max_score, f.ranking_score))))).Nodup := by
    rw [keysA, List.map_map]
    exact nodup_weighted_ids rs
  rw [lookupA_congr_perm hperm hnd aid,
    lookupA_map_value (wNumbers rs.length) (weightedCollect rs) aid]
  by_cases h : aid ∈ (iterItems rs).map (fun x => x.2.answer_id)
  · rw [if_pos h, weightedCollect, lookupA_collectBy_of_mem wZero wPush _ _ h]
    rfl
  · rw [if_neg h, weightedCollect, lookupA_collectBy_of_not_mem wZero wPush _ _ h]
    rfl

theorem lookup_simple_number (rs : ParaphraseResultSet) (aid : String) :
    lookupA ((simple_voting rs).map (fun f => (f.answer_id, f.ranking_score))) aid
      = if aid ∈ (iterItems rs).map (fun x => x.2.answer_id)
        then some (sNumber ((appearances rs aid).foldl sPush sZero))
        else none := by
  have hperm : ((simple_voting rs).map (fun f => (f.answer_id, f.ranking_score))).Perm
      ((simpleCollect rs).map (fun kv => (kv.1, sNumber kv.2))) := by
    rw [simple_voting]
    have h1 := (sortDescBy_perm (fun f : FusedAnswer => f.ranking_score)
      ((simpleCollect rs).map
        (fun kv => simpleEntry (collectTexts rs) kv.1 kv.2))).map
      (fun f : FusedAnswer => (f.answer_id, f.ranking_score))
    refine h1.trans ?_
    rw [List.map_map]
    exact List.Perm.refl _
  have hnd : (keysA ((simple_voting rs).map
      (fun f => (f.answer_id, f.ranking_score)))).Nodup := by
    rw [keysA, List.map_map]
    exact nodup_simple_ids rs
  rw [lookupA_congr_perm hperm hnd aid,
    lookupA_map_value sNumber (simpleCollect rs) aid]
  by_cases h : aid ∈ (iterItems rs).map (fun x => x.2.answer_id)
  · rw [if_pos h, simpleCollect, lookupA_collectBy_of_mem sZero sPush _ _ h]
    rfl
  · rw [if_neg h, simpleCollect, lookupA_collectBy_of_not_mem sZero sPush _ _ h]
    rfl

/-! ## Normalisation and ensemble lemmas -/

theorem keysA_map_value {β γ : Type} (g : β → γ) (st : List (String × β)) :
    keysA (st.map (fun kv => (kv.1, g kv.2))) = keysA st := by
  induction st with
  | nil => rfl
  | cons kv rest ih => simp [keysA] at ih ⊢

theorem keysA_normalizeDict (d : List (String × ℚ)) :
    keysA (normalizeDict d) = keysA d := by
  rw [normalizeDict]
  by_cases h : d.isEmpty
  · rw [if_pos h]
  · rw [if_neg h,
      keysA_map_value (fun v => if 0 < maxVals d then v / maxVals d else 0) d]

theorem lookup_normalizeDict_bounds {d : List (String × ℚ)}
    (hvals : ∀ kv ∈ d, 0 ≤ kv.2) {a : String} {s : ℚ}
    (h : lookupA (normalizeDict d) a = some s) : 0 ≤ s ∧ s ≤ 1 := by
  rw [normalizeDict] at h
  by_cases he : d.isEmpty
  · rw [if_pos he] at h
    have hd : d = [] := List.isEmpty_iff.1 he
    rw [hd] at h
    simp [lookupA] at h
  · rw [if_neg he,
      lookupA_map_value (fun v => if 0 < maxVals d then v / maxVals d else 0) d a] at h
    obtain ⟨v, hv, hs⟩ := Option.map_eq_some'.1 h
    have hmem := mem_of_lookupA_eq_some hv
    have hv0 : 0 ≤ v := hvals _ hmem
    by_cases hm : 0 < maxVals d
    · rw [← hs, if_pos hm]
      refine ⟨div_nonneg hv0 (le_of_lt hm), ?_⟩
      rw [div_le_one hm]
      exact le_listMax (List.mem_map_of_mem Prod.snd hmem)
    · rw [← hs, if_neg hm]
      norm_num

theorem mem_keys_normSimple (rs : ParaphraseResultSet) (aid : String) :
    aid ∈ keysA (normSimpleDict rs)
      ↔ aid ∈ (iterItems rs).map (fun x => x.2.answer_id) := by
  rw [normSimpleDict, keysA_normalizeDict, simpleDict, keysA, List.map_map,
    List.mem_map]
  exact mem_simple_ids rs aid

theorem mem_keys_normWeighted (rs : ParaphraseResultSet) (aid : String) :
    aid ∈ keysA (normWeightedDict rs)
      ↔ aid ∈ (iterItems rs).map (fun x => x.2.answer_id) := by
  rw [normWeightedDict, keysA_normalizeDict, weightedDict, keysA, List.map_map,
    List.mem_map]
  exact mem_weighted_ids rs aid

theorem simpleDict_vals_nonneg (rs : ParaphraseResultSet) :
    ∀ kv ∈ simpleDict rs, 0 ≤ kv.2 := by
  intro kv hkv
  obtain ⟨f, hf, rfl⟩ := List.mem_map.1 hkv
  have hf' := (sortDescBy_perm _ _).mem_iff.1 hf
  obtain ⟨kv', hkv', rfl⟩ := List.mem_map.1 hf'
  show 0 ≤ (kv'.2.votes : ℚ) + 1 / mean (kv'.2.positions.map (fun p : ℕ => (p : ℚ)))
  have h1 : (0 : ℚ) ≤ (kv'.2.votes : ℚ) := Nat.cast_nonneg _
  have h2 : 0 ≤ mean (kv'.2.positions.map (fun p : ℕ => (p : ℚ))) := by
    refine mean_nonneg ?_
    intro x hx
    obtain ⟨p, _, rfl⟩ := List.mem_map.1 hx
    exact Nat.cast_nonneg p
  have h3 : 0 ≤ 1 / mean (kv'.2.positions.map (fun p : ℕ => (p : ℚ))) :=
    one_div_nonneg.2 h2
  linarith

theorem mem_iterItems_score_nonneg {rs : ParaphraseResultSet}
    (hsc : ∀ pr ∈ rs, ∀ r ∈ pr.2, 0 ≤ r.score) {x : ℕ × AnswerResult}
    (hx : x ∈ iterItems rs) : 0 ≤ x.2.score := by
  obtain ⟨pr, hpr, hmem⟩ := List.mem_flatMap.1 hx
  exact hsc pr hpr x.2 (snd_mem_of_mem_enumFrom hmem)

theorem weightedCollect_mem_eq (rs : ParaphraseResultSet) {kv : String × WData}
    (hkv : kv ∈ weightedCollect rs) :
    kv.2 = (appearances rs kv.1).foldl wPush wZero := by
  have hnd := nodup_keysA_collectBy wZero wPush (iterItems rs)
  have hmemid : kv.1 ∈ (iterItems rs).map (fun x => x.2.answer_id) :=
    (mem_keysA_collectBy _ _ _ _).1 (List.mem_map_of_mem Prod.fst hkv)
  have hlook : lookupA (weightedCollect rs) kv.1 = some kv.2 :=
    lookupA_eq_some_of_mem hnd hkv
  rw [weightedCollect, lookupA_collectBy_of_mem wZero wPush _ _ hmemid] at hlook
  have := Option.some.injEq .. ▸ hlook
  simpa [appearances] using this.symm

theorem simpleCollect_mem_eq (rs : ParaphraseResultSet) {kv : String × SData}
    (hkv : kv ∈ simpleCollect rs) :
    kv.2 = (appearances rs kv.1).foldl sPush sZero := by
  have hnd := nodup_keysA_collectBy sZero sPush (iterItems rs)
  have hmemid : kv.1 ∈ (iterItems rs).map (fun x => x.2.answer_id) :=
    (mem_keysA_collectBy _ _ _ _).1 (List.mem_map_of_mem Prod.fst hkv)
  have hlook : lookupA (simpleCollect rs) kv.1 = some kv.2 :=
    lookupA_eq_some_of_mem hnd hkv
  rw [simpleCollect, lookupA_collectBy_of_mem sZero sPush _ _ hmemid] at hlook
  have := Option.some.injEq .. ▸ hlook
  simpa [appearances] using this.symm

theorem weightedDict_vals_nonneg (rs : ParaphraseResultSet)
    (hsc : ∀ pr ∈ rs, ∀ r ∈ pr.2, 0 ≤ r.score) :
    ∀ kv ∈ weightedDict rs, 0 ≤ kv.2 := by
  intro kv hkv
  obtain ⟨f, hf, rfl⟩ := List.mem_map.1 hkv
  have hf' := (sortDescBy_perm _ _).mem_iff.1 hf
  obtain ⟨kv', hkv', rfl⟩ := List.mem_map.1 hf'
  have hd := weightedCollect_mem_eq rs hkv'
  show 0 ≤ mean kv'.2.scores * 0.4 +
      mean (kv'.2.positions.map (fun p : ℕ => 1 / (p : ℚ))) * 0.4 +
      (if rs.length ≠ 0 then (kv'.2.count : ℚ) / (rs.length : ℚ) else 0) * 0.2
  have h1 : 0 ≤ mean kv'.2.scores := by
    refine mean_nonneg ?_
    intro x hx
    rw [hd, foldl_wPush_scores] at hx
    simp only [wZero, List.nil_append] at hx
    obtain ⟨y, hy, rfl⟩ := List.mem_map.1 hx
    exact mem_iterItems_score_nonneg hsc (List.mem_of_mem_filter hy)
  have h2 : 0 ≤ mean (kv'.2.positions.map (fun p : ℕ => 1 / (p : ℚ))) := by
    refine mean_nonneg ?_
    intro x hx
    obtain ⟨p, _, rfl⟩ := List.mem_map.1 hx
    exact one_div_nonneg.2 (Nat.cast_nonneg p)
  have h3 : (0 : ℚ) ≤ (if rs.length ≠ 0 then (kv'.2.count : ℚ) / (rs.length : ℚ) else 0) := by
    split
    · exact div_nonneg (Nat.cast_nonneg _) (Nat.cast_nonneg _)
    · exact le_refl 0
  nlinarith

theorem mem_ensemble_ids (rs : ParaphraseResultSet) (aid : String) :
    (∃ f ∈ ensemble_voting rs, f.answer_id = aid)
      ↔ aid ∈ (iterItems rs).map (fun x => x.2.answer_id) := by
  constructor
  · rintro ⟨f, hf, hid⟩
    obtain ⟨kv, hkv, rfl⟩ := List.mem_map.1 hf
    have hkv' := (sortDescBy_perm _ _).mem_iff.1 hkv
    obtain ⟨aid', haid', heq⟩ := List.mem_map.1 hkv'
    have hk1 : kv.1 = aid' := by rw [← heq]
    have haidmem : aid ∈ dedupFirst
        (keysA (normSimpleDict rs) ++ keysA (normWeightedDict rs)) := by
      have : aid = aid' := by
        rw [← hid]
        exact hk1
      rw [this]
      exact haid'
    rw [mem_dedupFirst, List.mem_append] at haidmem
    rcases haidmem with h | h
    · exact (mem_keys_normSimple rs aid).1 h
    · exact (mem_keys_normWeighted rs aid).1 h
  · intro h
    have hdd : aid ∈ dedupFirst
        (keysA (normSimpleDict rs) ++ keysA (normWeightedDict rs)) := by
      rw [mem_dedupFirst, List.mem_append]
      exact Or.inl ((mem_keys_normSimple rs aid).2 h)
    have hscore : (aid, 0.4 * ((lookupA (normSimpleDict rs) aid).getD 0) +
        0.6 * ((lookupA (normWeightedDict rs) aid).getD 0)) ∈ ensembleScores rs :=
      List.mem_map_of_mem _ hdd
    have hsorted := (sortDescBy_perm Prod.snd (ensembleScores rs)).symm.mem_iff.1 hscore
    exact ⟨_, List.mem_map_of_mem _ hsorted, rfl⟩

theorem nodup_ensemble_ids (rs : ParaphraseResultSet) :
    ((ensemble_voting rs).map (fun f => f.answer_id)).Nodup := by
  have hperm : ((ensemble_voting rs).map (fun f => f.answer_id)).Perm
      (dedupFirst (keysA (normSimpleDict rs) ++ keysA (normWeightedDict rs))) := by
    rw [ensemble_voting, List.map_map]
    have h1 := (sortDescBy_perm Prod.snd (ensembleScores rs)).map
      (fun kv : String × ℚ => kv.1)
    refine h1.trans ?_
    rw [ensembleScores, List.map_map]
    rw [show ((fun kv : String × ℚ => kv.1) ∘
        (fun aid => (aid, 0.4 * ((lookupA (normSimpleDict rs) aid).getD 0) +
          0.6 * ((lookupA (normWeightedDict rs) aid).getD 0)))) = id from rfl,
      List.map_id]
  exact hperm.symm.nodup (nodup_dedupFirst _)

/-! ## Permutation congruence of the numeric scores -/

theorem wNumbers_perm_congr (n : ℕ) {l l' : List (ℕ × AnswerResult)} (h : l.Perm l') :
    wNumbers n (l.foldl wPush wZero) = wNumbers n (l'.foldl wPush wZero) := by
  rw [wNumbers, wNumbers, foldl_wPush_scores, foldl_wPush_scores,
    foldl_wPush_positions, foldl_wPush_positions, foldl_wPush_count, foldl_wPush_count]
  simp only [wZero, List.nil_append, Nat.zero_add]
  rw [mean_congr_perm (h.map (fun x => x.2.score)),
    listMax_congr_perm (h.map (fun x => x.2.score)),
    mean_congr_perm ((h.map (fun x => x.1)).map (fun p : ℕ => 1 / (p : ℚ))),
    h.length_eq]

theorem sNumber_perm_congr {l l' : List (ℕ × AnswerResult)} (h : l.Perm l') :
    sNumber (l.foldl sPush sZero) = sNumber (l'.foldl sPush sZero) := by
  rw [sNumber, sNumber, foldl_sPush_votes, foldl_sPush_votes,
    foldl_sPush_positions, foldl_sPush_positions]
  simp only [sZero, List.nil_append, Nat.zero_add]
  rw [h.length_eq,
    mean_congr_perm ((h.map (fun x => x.1)).map (fun p : ℕ => (p : ℚ)))]

/-! ## Claims -/

/-- C1: for every non-empty `ParaphraseResultSet` and each of the three voting
methods, the set of `answer_id` values in the fused output of `rank_answers`
equals exactly the union of the `answer_id` values across all input lists:
no candidate present in any input list is missing, and no foreign id appears. -/
theorem fusion_ids_eq_union (rs : ParaphraseResultSet) (m : String) (hne : rs ≠ [])
    (hm : m = "simple" ∨ m = "weighted" ∨ m = "ensemble") :
    ∃ out, rank_answers m rs = Except.ok out ∧
      ∀ aid, (∃ f ∈ out, f.answer_id = aid) ↔ ∃ pr ∈ rs, ∃ r ∈ pr.2, r.answer_id = aid := by
  have hempty : ¬ (rs.isEmpty = true) := fun hc => hne (List.isEmpty_iff.1 hc)
  rcases hm with rfl | rfl | rfl
  · refine ⟨simple_voting rs, ?_, ?_⟩
    · rw [rank_answers, if_neg hempty, if_pos rfl]
    · intro aid
      rw [mem_simple_ids]
      exact mem_iterItems_ids rs aid
  · refine ⟨weighted_voting rs, ?_, ?_⟩
    · rw [rank_answers, if_neg hempty, if_neg (by decide), if_pos rfl]
    · intro aid
      rw [mem_weighted_ids]
      exact mem_iterItems_ids rs aid
  · refine ⟨ensemble_voting rs, ?_, ?_⟩
    · rw [rank_answers, if_neg hempty, if_neg (by decide), if_neg (by decide), if_pos rfl]
    · intro aid
      rw [mem_ensemble_ids]
      exact mem_iterItems_ids rs aid

/-- Witness for C1: the id-preservation theorem applied to the concrete
one-branch result set `rsW` with the `simple` method. -/
theorem fusion_ids_eq_union_witness :
    ∃ out, rank_answers "simple" rsW = Except.ok out ∧
      ∀ aid, (∃ f ∈ out, f.answer_id = aid) ↔ ∃ pr ∈ rsW, ∃ r ∈ pr.2, r.answer_id = aid :=
  fusion_ids_eq_union rsW "simple" (by simp [rsW]) (Or.inl rfl)

/-- C2: for every non-empty `ParaphraseResultSet`, the weighted method gives
each fused answer `avg_score = mean(scores)`, `max_score = max(scores)`,
`avg_position_weight = mean(1/position)` over the branch-local 1-indexed
positions, `count_bonus = count / number of lists`, and
`ranking_score = 0.4*avg_score + 0.4*avg_position_weight + 0.2*count_bonus`;
the output is sorted in descending order of `ranking_score`. -/
theorem weighted_formulas_and_sorted (rs : ParaphraseResultSet) (hne : rs ≠ []) :
    (∀ aid, appearances rs aid ≠ [] →
      ∃ f ∈ weighted_voting rs, f.answer_id = aid ∧
        f.avg_score = mean ((appearances rs aid).map (fun x => x.2.score)) ∧
        f.max_score = listMax ((appearances rs aid).map (fun x => x.2.score)) ∧
        f.ranking_score =
          0.4 * mean ((appearances rs aid).map (fun x => x.2.score)) +
          0.4 * mean ((appearances rs aid).map (fun x => 1 / (x.1 : ℚ))) +
          0.2 * (((appearances rs aid).length : ℚ) / (rs.length : ℚ))) ∧
    (weighted_voting rs).Pairwise (fun a b => b.ranking_score ≤ a.ranking_score) := by
  constructor
  · intro aid hne'
    have hids : aid ∈ (iterItems rs).map (fun x => x.2.answer_id) := by
      obtain ⟨x, hx⟩ := List.exists_mem_of_ne_nil _ hne'
      have hx1 := List.mem_of_mem_filter hx
      have hx2 : x.2.answer_id = aid := by simpa using List.of_mem_filter hx
      exact List.mem_map.2 ⟨x, hx1, hx2⟩
    have hlook := lookupA_collectBy_of_mem wZero wPush (iterItems rs) aid hids
    set d := ((iterItems rs).filter (fun x => x.2.answer_id = aid)).foldl wPush wZero with hd
    have hmem : (aid, d) ∈ weightedCollect rs := mem_of_lookupA_eq_some hlook
    have hlen : rs.length ≠ 0 := fun hc => hne (List.length_eq_zero.1 hc)
    refine ⟨weightedEntry rs.length (collectTexts rs) aid d, ?_, rfl, ?_, ?_, ?_⟩
    · rw [weighted_voting_eq]
      refine (sortDescBy_perm _ _).symm.mem_iff.1 ?_
      exact List.mem_map.2 ⟨(aid, d), hmem, rfl⟩
    · show mean d.scores = mean ((appearances rs aid).map (fun x => x.2.score))
      rw [hd, foldl_wPush_scores]
      simp [wZero, appearances]
    · show listMax d.scores = listMax ((appearances rs aid).map (fun x => x.2.score))
      rw [hd, foldl_wPush_scores]
      simp [wZero, appearances]
    · show mean d.scores * 0.4 +
          mean (d.positions.map (fun p : ℕ => 1 / (p : ℚ))) * 0.4 +
          (if rs.length ≠ 0 then (d.count : ℚ) / (rs.length : ℚ) else 0) * 0.2 = _
      rw [if_pos hlen, hd, foldl_wPush_scores, foldl_wPush_positions, foldl_wPush_count]
      simp only [wZero, List.nil_append, Nat.zero_add, List.map_map, appearances]
      rw [show ((fun p : ℕ => 1 / (p : ℚ)) ∘ fun x : ℕ × AnswerResult => x.1)
        = (fun x : ℕ × AnswerResult => 1 / (x.1 : ℚ)) from rfl]
      ring

  · exact sortDescBy_pairwise _ _

/-- Witness for C2: the weighted-formula theorem applied to the concrete
scenario `exRS` at `answer_id = "ans1"`. -/
theorem weighted_formulas_and_sorted_witness :
    (∃ f ∈ weighted_voting exRS, f.answer_id = "ans1" ∧
      f.avg_score = mean ((appearances exRS "ans1").map (fun x => x.2.score)) ∧
      f.max_score = listMax ((appearances exRS "ans1").map (fun x => x.2.score)) ∧
      f.ranking_score =
        0.4 * mean ((appearances exRS "ans1").map (fun x => x.2.score)) +
        0.4 * mean ((appearances exRS "ans1").map (fun x => 1 / (x.1 : ℚ))) +
        0.2 * (((appearances exRS "ans1").length : ℚ) / (exRS.length : ℚ))) ∧
    (weighted_voting exRS).Pairwise (fun a b => b.ranking_score ≤ a.ranking_score) :=
  ⟨(weighted_formulas_and_sorted exRS (by simp [exRS])).1 "ans1" (by decide),
   (weighted_formulas_and_sorted exRS (by simp [exRS])).2⟩

/-- C3 counterexample: with the collaborator `cBranchFail`, branch `"p1"`
succeeds with the candidate `ansA` and branch `"p2"` fails at its embedding
call. The claim predicts that only branch `"p2"` degrades to empty and the
healthy branch survives into the fused output, so `ansA` (id `"A"`) would be
returned; the code instead aborts the whole fan-out and returns the baseline
result `[ansB]`, which does not contain id `"A"`. -/
theorem branch_failure_counterexample :
    findWithParaphrasing cBranchFail "q" none none = Except.ok [ansB] ∧
    ansB.answer_id ≠ ansA.answer_id := by
  constructor
  · rfl
  · decide

/-- C3 amended: a failure on one branch of the fan-out aborts the whole
fan-out; the entire request falls back to a single baseline search on the
original query, and the branch failure is not surfaced as the error of the
overall operation (the operation returns whatever the baseline path returns). -/
theorem branch_failure_falls_back_to_baseline (c : Collab) (q : String)
    (l : Option ℕ) (t : Option ℚ) (ps : List String) (e : CollabErr)
    (hgen : c.generateParaphrases q num_paraphrases = .ok ps)
    (hroute : usesBaseline q ps = false)
    (hfail : fanoutResults c ps (paraphraseThreshold t) = .error e) :
    findWithParaphrasing c q l t = baselineSearch c q l t := by
  rw [findWithParaphrasing, hgen]
  simp only [hroute, Bool.false_eq_true, if_false, hfail]

/-- Witness for the amended C3, at the concrete failing collaborator. -/
theorem branch_failure_falls_back_witness :
    findWithParaphrasing cBranchFail "q" none none =
      baselineSearch cBranchFail "q" none none :=
  branch_failure_falls_back_to_baseline cBranchFail "q" none none ["p1", "p2"]
    CollabErr.embeddingError rfl (by decide) rfl

/-- C4: if the paraphrase list is empty, or it is a single paraphrase whose
lowercased text equals the lowercased original query, the search runs the
single baseline path (no `ParaphraseResultSet` is built: the fan-out branch
of `findWithParaphrasing` is not taken). -/
theorem no_useful_paraphrase_uses_baseline (c : Collab) (q : String)
    (l : Option ℕ) (t : Option ℚ) (ps : List String)
    (hgen : c.generateParaphrases q num_paraphrases = .ok ps)
    (hcond : ps = [] ∨ ∃ p, ps = [p] ∧ pyLower p = pyLower q) :
    findWithParaphrasing c q l t = baselineSearch c q l t := by
  have hub : usesBaseline q ps = true := by
    rcases hcond with rfl | ⟨p, rfl, hp⟩
    · rfl
    · rw [usesBaseline]
      simp [hp]
  rw [findWithParaphrasing, hgen]
  simp only [hub, if_true]

/-- Witness for C4: the fallback trigger of the spec,
`paraphrases = ["Как дела?"]` with `original_query = "как дела?"` (the
case-insensitive match on the Cyrillic strings). -/
theorem no_useful_paraphrase_witness :
    findWithParaphrasing cSinglePara "как дела?" none none =
      baselineSearch cSinglePara "как дела?" none none :=
  no_useful_paraphrase_uses_baseline cSinglePara "как дела?" none none
    ["Как дела?"] rfl (Or.inr ⟨"Как дела?", rfl, by decide⟩)

/-- C5 counterexample: the empty-resultSet early return of `rank_answers`
precedes the method dispatch, so the unknown method `"bogus"` on the empty
`ParaphraseResultSet` returns `[]` instead of failing with
`ConfigurationError`, refuting the claim for the empty input. -/
theorem unknown_method_counterexample :
    rank_answers "bogus" [] = Except.ok [] ∧
    ¬ ("bogus" = "simple" ∨ "bogus" = "weighted" ∨ "bogus" = "ensemble") := by
  constructor
  · rfl
  · decide

/-- C5 amended: with a method name other than the three known ones,
`rank_answers` fails with `ConfigurationError` on every non-empty
`ParaphraseResultSet` — depending only on the method name — while the empty
`ParaphraseResultSet` returns the empty output for every method name (the
emptiness check precedes the dispatch). -/
theorem unknown_method_behavior (m : String) (rs : ParaphraseResultSet)
    (hm : m ≠ "simple" ∧ m ≠ "weighted" ∧ m ≠ "ensemble") :
    rank_answers m rs =
      if rs.isEmpty then Except.ok []
      else Except.error (RankError.configurationError m) := by
  rw [rank_answers]
  by_cases h : rs.isEmpty
  · simp [h]
  · simp [h, hm.1, hm.2.1, hm.2.2]

/-- Witness for the amended C5: `"bogus"` on a non-empty result set raises. -/
theorem unknown_method_behavior_witness :
    rank_answers "bogus" [("p", [])] =
      Except.error (RankError.configurationError "bogus") := by
  have h := unknown_method_behavior "bogus" [("p", [])]
    ⟨by decide, by decide, by decide⟩
  simpa using h

/-- C6: fusing the spec's concrete resultSet with the weighted method yields
exactly `ans1, ans2, ans3` in that order with
`(avg, max, ranking) = (0.775, 0.8, 0.91), (0.7, 0.7, 0.58), (0.6, 0.6, 0.54)`. -/
theorem weighted_concrete_scenario :
    (weighted_voting exRS).map
        (fun f => (f.answer_id, f.avg_score, f.max_score, f.ranking_score)) =
      [("ans1", 0.775, 0.8, 0.91), ("ans2", 0.7, 0.7, 0.58), ("ans3", 0.6, 0.6, 0.54)] := by
  norm_num +decide [weighted_voting, weightedCollect, collectBy, iterItems, enumFrom,
    dupdate, wPush, wZero, weightedEntry, mean, listMax, collectTexts, lookupA,
    sortDescBy, insertDescBy, keysA, exRS]

/-- C7 counterexample: with the baseline threshold set to `0.0` (a set value
that is falsy in Python), the relaxed threshold is the absolute default
`0.2`, not `0.0 × 0.7`, and it is not lower than the baseline threshold. -/
theorem relaxed_threshold_counterexample :
    paraphraseThreshold (some 0) = 0.2 ∧
    paraphraseThreshold (some 0) ≠ 0 * 0.7 ∧
    ¬ paraphraseThreshold (some 0) < 0 := by
  norm_num [paraphraseThreshold]

/-- C7 amended: every fan-out branch searches with the per-branch limit 5;
the relaxed threshold equals the baseline threshold times 0.7 when a nonzero
baseline threshold is set (a zero threshold is falsy and treated as unset,
yielding the absolute default 0.2, as does a missing threshold), and for a
positive baseline threshold the relaxed threshold is strictly lower. -/
theorem relaxed_threshold_behavior (t : ℚ) (ht : t ≠ 0) :
    limit_per_paraphrase = 5 ∧
    paraphraseThreshold none = 0.2 ∧
    paraphraseThreshold (some 0) = 0.2 ∧
    paraphraseThreshold (some t) = t * 0.7 ∧
    (0 < t → paraphraseThreshold (some t) < t) := by
  refine ⟨rfl, rfl, by norm_num [paraphraseThreshold], ?_, ?_⟩
  · rw [paraphraseThreshold, if_neg ht]
  · intro h0
    rw [paraphraseThreshold, if_neg ht]
    nlinarith

/-- Witness for the amended C7, at the concrete baseline threshold `1/2`. -/
theorem relaxed_threshold_behavior_witness :
    limit_per_paraphrase = 5 ∧
    paraphraseThreshold none = 0.2 ∧
    paraphraseThreshold (some 0) = 0.2 ∧
    paraphraseThreshold (some (1/2)) = (1/2) * 0.7 ∧
    (0 < (1/2 : ℚ) → paraphraseThreshold (some (1/2)) < 1/2) :=
  relaxed_threshold_behavior (1/2) (by norm_num)

/-- C8: for every permutation of the iteration order of the input map, the
numeric scores computed by the `simple` method (final score per `answer_id`)
and by the `weighted` method (`avg_score`, `max_score`, `ranking_score` per
`answer_id`) are identical; order may only affect text selection and
tie-break ordering. -/
theorem voting_scores_order_invariant (rs rs' : ParaphraseResultSet)
    (hp : rs.Perm rs') (aid : String) :
    lookupA ((simple_voting rs).map (fun f => (f.answer_id, f.ranking_score))) aid
      = lookupA ((simple_voting rs').map (fun f => (f.answer_id, f.ranking_score))) aid ∧
    lookupA ((weighted_voting rs).map
        (fun f => (f.answer_id, (f.avg_score, f.max_score, f.ranking_score)))) aid
      = lookupA ((weighted_voting rs').map
        (fun f => (f.answer_id, (f.avg_score, f.max_score, f.ranking_score)))) aid := by
  have hitems := iterItems_perm hp
  have hmem : (aid ∈ (iterItems rs).map (fun x => x.2.answer_id))
      ↔ (aid ∈ (iterItems rs').map (fun x => x.2.answer_id)) :=
    (hitems.map _).mem_iff
  have happ : (appearances rs aid).Perm (appearances rs' aid) := hitems.filter _
  constructor
  · rw [lookup_simple_number, lookup_simple_number]
    by_cases h : aid ∈ (iterItems rs).map (fun x => x.2.answer_id)
    · rw [if_pos h, if_pos (hmem.1 h), sNumber_perm_congr happ]
    · rw [if_neg h, if_neg (fun hc => h (hmem.2 hc))]
  · rw [lookup_weighted_numbers, lookup_weighted_numbers]
    by_cases h : aid ∈ (iterItems rs).map (fun x => x.2.answer_id)
    · rw [if_pos h, if_pos (hmem.1 h), hp.length_eq, wNumbers_perm_congr rs'.length happ]
    · rw [if_neg h, if_neg (fun hc => h (hmem.2 hc))]

/-- Witness for C8: the two branch orders of the concrete scenario give the
same numeric scores for `"ans1"`. -/
theorem voting_scores_order_invariant_witness :
    lookupA ((simple_voting exRS).map (fun f => (f.answer_id, f.ranking_score))) "ans1"
      = lookupA ((simple_voting exRSrev).map (fun f => (f.answer_id, f.ranking_score))) "ans1" ∧
    lookupA ((weighted_voting exRS).map
        (fun f => (f.answer_id, (f.avg_score, f.max_score, f.ranking_score)))) "ans1"
      = lookupA ((weighted_voting exRSrev).map
        (fun f => (f.answer_id, (f.avg_score, f.max_score, f.ranking_score)))) "ans1" :=
  voting_scores_order_invariant exRS exRSrev
    (by unfold exRS exRSrev; exact List.Perm.swap _ _ _) "ans1"

/-- C9: for a non-empty resultSet whose candidate scores all lie in `[0, 1]`,
every ensemble ranking score equals `0.4` times the normalised simple score
plus `0.6` times the normalised weighted score, each normalised value lies in
`[0, 1]`, and hence every ensemble ranking score lies in `[0, 1]`. -/
theorem ensemble_convex_bounds (rs : ParaphraseResultSet) (_hne : rs ≠ [])
    (hsc : ∀ pr ∈ rs, ∀ r ∈ pr.2, 0 ≤ r.score ∧ r.score ≤ 1) :
    ∀ f ∈ ensemble_voting rs,
      ∃ s w, lookupA (normSimpleDict rs) f.answer_id = some s ∧
        lookupA (normWeightedDict rs) f.answer_id = some w ∧
        f.ranking_score = 0.4 * s + 0.6 * w ∧
        0 ≤ s ∧ s ≤ 1 ∧ 0 ≤ w ∧ w ≤ 1 ∧
        0 ≤ f.ranking_score ∧ f.ranking_score ≤ 1 := by
  intro f hf
  obtain ⟨kv, hkv, rfl⟩ := List.mem_map.1 hf
  have hkv' := (sortDescBy_perm _ _).mem_iff.1 hkv
  obtain ⟨aid, haid, rfl⟩ := List.mem_map.1 hkv'
  rw [mem_dedupFirst, List.mem_append] at haid
  have hids : aid ∈ (iterItems rs).map (fun x => x.2.answer_id) := by
    rcases haid with h | h
    · exact (mem_keys_normSimple rs aid).1 h
    · exact (mem_keys_normWeighted rs aid).1 h
  have hS : aid ∈ keysA (normSimpleDict rs) := (mem_keys_normSimple rs aid).2 hids
  have hW : aid ∈ keysA (normWeightedDict rs) := (mem_keys_normWeighted rs aid).2 hids
  obtain ⟨s, hs⟩ : ∃ s, lookupA (normSimpleDict rs) aid = some s := by
    cases h : lookupA (normSimpleDict rs) aid with
    | none => rw [lookupA_eq_none_iff] at h; exact absurd hS h
    | some v => exact ⟨v, rfl⟩
  obtain ⟨w, hw⟩ : ∃ w, lookupA (normWeightedDict rs) aid = some w := by
    cases h : lookupA (normWeightedDict rs) aid with
    | none => rw [lookupA_eq_none_iff] at h; exact absurd hW h
    | some v => exact ⟨v, rfl⟩
  have hsb : 0 ≤ s ∧ s ≤ 1 :=
    lookup_normalizeDict_bounds (simpleDict_vals_nonneg rs) hs
  have hwb : 0 ≤ w ∧ w ≤ 1 :=
    lookup_normalizeDict_bounds
      (weightedDict_vals_nonneg rs (fun pr hpr r hr => (hsc pr hpr r hr).1)) hw
  have hg1 : (lookupA (normSimpleDict rs) aid).getD 0 = s := by rw [hs]; rfl
  have hg2 : (lookupA (normWeightedDict rs) aid).getD 0 = w := by rw [hw]; rfl
  refine ⟨s, w, hs, hw, ?_, hsb.1, hsb.2, hwb.1, hwb.2, ?_, ?_⟩
  · show 0.4 * ((lookupA (normSimpleDict rs) aid).getD 0) +
        0.6 * ((lookupA (normWeightedDict rs) aid).getD 0) = 0.4 * s + 0.6 * w
    rw [hg1, hg2]
  · show (0 : ℚ) ≤ 0.4 * ((lookupA (normSimpleDict rs) aid).getD 0) +
        0.6 * ((lookupA (normWeightedDict rs) aid).getD 0)
    rw [hg1, hg2]
    linarith [hsb.1, hwb.1]
  · show 0.4 * ((lookupA (normSimpleDict rs) aid).getD 0) +
        0.6 * ((lookupA (normWeightedDict rs) aid).getD 0) ≤ 1
    rw [hg1, hg2]
    linarith [hsb.2, hwb.2]

/-- The ensemble output of the one-branch, one-candidate result set. -/
theorem ensemble_rsW_eval : ensemble_voting rsW = [⟨"a", "t", 1, 1/2, 1⟩] := by
  norm_num +decide [ensemble_voting, ensembleScores, normSimpleDict, normWeightedDict,
    normalizeDict, simpleDict, weightedDict, maxScoreDict, textsDict, simple_voting,
    weighted_voting, simpleCollect, weightedCollect, collectBy, iterItems, enumFrom,
    dupdate, wPush, wZero, sPush, sZero, weightedEntry, simpleEntry, mean, listMax,
    maxVals, collectTexts, lookupA, keysA, sortDescBy, insertDescBy, dedupFirst, rsW]

/-- Witness for C9: the convex-combination bounds applied to the ensemble
output entry of the concrete result set `rsW`. -/
theorem ensemble_convex_bounds_witness :
    ∃ s w, lookupA (normSimpleDict rsW) (FusedAnswer.mk "a" "t" 1 (1/2) 1).answer_id = some s ∧
      lookupA (normWeightedDict rsW) (FusedAnswer.mk "a" "t" 1 (1/2) 1).answer_id = some w ∧
      (FusedAnswer.mk "a" "t" 1 (1/2) 1).ranking_score = 0.4 * s + 0.6 * w ∧
      0 ≤ s ∧ s ≤ 1 ∧ 0 ≤ w ∧ w ≤ 1 ∧
      0 ≤ (FusedAnswer.mk "a" "t" 1 (1/2) 1).ranking_score ∧
      (FusedAnswer.mk "a" "t" 1 (1/2) 1).ranking_score ≤ 1 :=
  ensemble_convex_bounds rsW (by simp [rsW]) (by norm_num [rsW])
    (FusedAnswer.mk "a" "t" 1 (1/2) 1)
    (by rw [ensemble_rsW_eval]; exact List.mem_singleton.2 rfl)

/-- C10: for every `ParaphraseResultSet` and each voting method, every
`answer_id` appears at most once in the output of `rank_answers`: candidates
sharing an id are aggregated into one entry, never emitted as duplicates. -/
theorem fused_ids_nodup (rs : ParaphraseResultSet) (m : String)
    (out : List FusedAnswer) (h : rank_answers m rs = Except.ok out) :
    (out.map (fun f => f.answer_id)).Nodup := by
  rw [rank_answers] at h
  split_ifs at h with h1 h2 h3 h4
  · injection h with h'
    rw [← h']
    simp
  · injection h with h'
    rw [← h']
    exact nodup_simple_ids rs
  · injection h with h'
    rw [← h']
    exact nodup_weighted_ids rs
  · injection h with h'
    rw [← h']
    exact nodup_ensemble_ids rs

/-- Witness for C10: the ensemble output of `rsW` has unique ids. -/
theorem fused_ids_nodup_witness :
    ((ensemble_voting rsW).map (fun f => f.answer_id)).Nodup :=
  fused_ids_nodup rsW "ensemble" (ensemble_voting rsW) rfl

end Arasaka
